import Mathlib

/-!
Verification development for the tweakle ETL service (src/main.go).

The Go program is embedded shallowly:
  * byte streams are `List Nat` (one `Nat` per byte);
  * `io.ReadCloser` values flowing through the pipeline are `Option ByteL`
    (`none` models a nil reader, as produced by `unzip` on a zero-entry
    archive);
  * external collaborators (the HTTP transport, `regexp.Compile`,
    `zip.NewReader`, the encoding tables of `charset.NewReaderLabel`, the
    BigQuery client) are parameters of the model functions, typed by the
    narrow contract the Go code uses;
  * functions that can crash are given an `Outcome` codomain whose
    `panicked` constructor records a runtime panic (nil dereference or
    `regexp.MustCompile` on a bad pattern).
-/

namespace Tweakle

/-- A byte string: one `Nat` (value `< 256`) per byte. -/
abbrev ByteL := List Nat

/-- Error taxonomy of the specification (section 7).  The Go code uses
plain `error` values; the kind records which stage produced the error. -/
inductive ErrKind
  | configuration
  | extraction
  | transform
  | eof
  | load
  deriving DecidableEq, Repr

/-- Result of running a piece of the Go program: normal value, error
return, or a runtime panic (crash). -/
inductive Outcome (α : Type)
  | ok (a : α)
  | err (e : ErrKind)
  | panicked
  deriving DecidableEq, Repr

/-- Bytes of an ASCII string (every character of a claim input is ASCII,
so code points and UTF-8 bytes coincide). -/
def strBytes (s : String) : ByteL := s.data.map Char.toNat

/-- Decodes ASCII bytes back to a string (header fields of the claims are
ASCII). -/
def bytesAsString (bs : ByteL) : String := (bs.map Char.ofNat).asString

/-! Section: bufio.Reader over an in-memory source

`csvHeader` (main.go line 84) wraps its argument in `bufio.NewReader`.
For the claims the underlying reader is an in-memory byte source
(`bytes.Reader` / `strings.Reader` semantics: a single `Read` call
returns `min(len(p), remaining)` bytes), so the reader state is the
buffered bytes plus the not-yet-read source bytes. -/

/-- Default `bufio` buffer size. -/
def bufSize : Nat := 4096

/-- State of a `bufio.Reader` whose underlying reader is an in-memory
byte source. -/
structure BufReader where
  buf : ByteL
  src : ByteL
  deriving DecidableEq, Repr

namespace BufReader

/-- One `fill`: a single `Read` on the in-memory source moves
`min(space, remaining)` bytes into the buffer. -/
def fill (b : BufReader) : BufReader :=
  { buf := b.buf ++ b.src.take (bufSize - b.buf.length)
    src := b.src.drop (bufSize - b.buf.length) }

/-- Model of `Peek(n)`: fill while fewer than `n` bytes are buffered (one fill
suffices for an in-memory source: it either fills the buffer or drains
the source), then return the first `n` buffered bytes, or `io.EOF` when
fewer than `n` bytes exist. -/
def peek (b : BufReader) (n : Nat) : Except ErrKind ByteL × BufReader :=
  let b1 := if b.buf.length < n then b.fill else b
  if n ≤ b1.buf.length then (.ok (b1.buf.take n), b1) else (.error .eof, b1)

/-- Model of `Discard(n)` for `n` not above the buffered count (the only use,
`csvHeader` line 91, discards the 3 bytes a successful `Peek(3)` just
buffered). -/
def discard (b : BufReader) (n : Nat) : BufReader :=
  { b with buf := b.buf.drop n }

/-- Model of `Read(p)` with `len(p) = n`: serve from the buffer when it is
non-empty; on an empty buffer either read straight from the source
(large `p`) or fill once and serve.  An exhausted reader returns no
bytes (`io.EOF`). -/
def read (b : BufReader) (n : Nat) : ByteL × BufReader :=
  if b.buf.isEmpty then
    if bufSize ≤ n then
      (b.src.take n, { b with src := b.src.drop n })
    else
      let b1 := b.fill
      (b1.buf.take n, { b1 with buf := b1.buf.drop n })
  else
    (b.buf.take n, { b with buf := b.buf.drop n })

/-- Every byte a caller could still read from the reader: what `load`
(main.go line 115) hands to the BigQuery reader source. -/
def readAll (b : BufReader) : ByteL := b.buf ++ b.src

end BufReader

/-! Section: encoding/csv, restricted to the record shapes the claims use

`csv.NewReader` wraps its argument in a **second** `bufio.Reader`; the
record reader pulls whole chunks out of the outer reader through that
private buffer.  The model keeps that private buffer (`ibuf`) explicit,
because bytes left in it when `csvHeader` returns are unreachable from
the returned reader.

Modelled subset: records without quoted fields and without comment
lines (no claim input contains a quote character or a comment rune;
`LazyQuotes` only changes the parse of quoted fields). -/

/-- State of a `csv.Reader`: its private buffer plus the wrapped
`bufio.Reader`. -/
structure CsvReader where
  ibuf : ByteL
  br : BufReader
  deriving DecidableEq, Repr

/-- Model of `ReadSlice` of the newline byte, combined with the accumulation
`csv.readLine` performs on `bufio.ErrBufferFull`: pull chunks from the
outer reader until the private buffer holds a newline or the outer
reader is exhausted.  `fuel` bounds the chunk count; each pull consumes
at least one byte, so any fuel of at least the remaining byte count is
enough (callers pass exactly that). -/
def readSliceNL : Nat → CsvReader → ByteL × CsvReader
  | 0, s => (s.ibuf, { s with ibuf := [] })
  | fuel + 1, s =>
    match s.ibuf.findIdx? (· == 10) with
    | some i => (s.ibuf.take (i + 1), { s with ibuf := s.ibuf.drop (i + 1) })
    | none =>
      if s.br.readAll.isEmpty then
        (s.ibuf, { s with ibuf := [] })
      else
        let p := s.br.read bufSize
        readSliceNL fuel ⟨s.ibuf ++ p.1, p.2⟩

/-- Drops a trailing newline (or carriage return and newline) from a
line, as `csv.readLine` normalises and `lengthNL` measures. -/
def stripNL (l : ByteL) : ByteL :=
  if l.getLast? = some 10 then
    let l1 := l.dropLast
    if l1.getLast? = some 13 then l1.dropLast else l1
  else l

/-- The line-acquisition loop of `csv.Reader.readRecord`: read a line,
skip it when blank, stop at the first data line or at end of input (an
empty result models the `io.EOF` return). -/
def readRecordLine : Nat → CsvReader → ByteL × CsvReader
  | 0, s => ([], s)
  | fuel + 1, s =>
    let p := readSliceNL (s.ibuf.length + s.br.readAll.length + 1) s
    if p.1 = [] then ([], p.2)
    else if stripNL p.1 = [] then readRecordLine fuel p.2
    else p

/-- Field split of one unquoted record line: drop the line terminator,
split on the comma byte. -/
def parseCsvLine (line : ByteL) : List ByteL :=
  (stripNL line).splitOn 44

/-! Section: csvHeader (main.go lines 83-100) -/

/-- Model of `csvHeader`: wrap the stream in a `bufio.Reader`, `Peek(3)` (any
error aborts), discard a UTF-8 byte-order mark, then read one CSV
record through `csv.NewReader` **of the buffered reader** and return
the record together with the buffered reader.  Bytes the record reader
pulled into its private buffer beyond the header line are not part of
the returned reader. -/
def csvHeader (content : ByteL) : Outcome (List ByteL × BufReader) :=
  let br0 : BufReader := ⟨[], content⟩
  match br0.peek 3 with
  | (.error e, _) => .err e
  | (.ok bom, br1) =>
    let br2 := if bom = [0xEF, 0xBB, 0xBF] then br1.discard 3 else br1
    let p := readRecordLine (br2.readAll.length + 1) ⟨[], br2⟩
    if p.1 = [] then .err .eof
    else .ok (parseCsvLine p.1, p.2.br)

/-! Section: regexp template expansion (Go regexp.Regexp.ExpandString)

`formatMap` (main.go lines 248-261) uses two methods of a compiled
`*regexp.Regexp`: `FindAllStringSubmatchIndex(content, -1)` and
`ExpandString(result, template, content, submatches)`.  The compiled
pattern is embedded as the pair of behaviours the code consumes: the
match-index function and the subexpression names.  Submatch index
slices are `List Int` exactly as in Go (`-1` marks a group that did not
participate).  Index arithmetic follows the model convention that the
matcher reports character positions (for ASCII content, identical to
the byte positions Go reports). -/

/-- A compiled regular expression, by the behaviour `formatMap` uses:
all-match submatch indices plus `SubexpNames`. -/
structure Regexp where
  findAll : String → List (List Int)
  names : List String

/-- A template-reference character: letter, digit or underscore
(`extract` in Go regexp).  The Go test is on Unicode letters and
digits; claim inputs are ASCII, where this agrees. -/
def isWordChar (c : Char) : Bool := c.isAlpha || c.isDigit || c = '_'

/-- The digit-accumulation loop of Go `extract`: stops with `-1` on a
non-digit or once the accumulator has reached `10^8` with digits left. -/
def refNumLoop : List Char → Int → Int
  | [], num => num
  | c :: rest, num =>
    if ¬ c.isDigit ∨ 100000000 ≤ num then -1
    else refNumLoop rest (num * 10 + (c.toNat - 48))

/-- Numeric value of a reference name, `-1` when the name is not a
plain number (Go `extract`: digit loop, then the leading-zero rule). -/
def refNum (name : List Char) : Int :=
  let num := refNumLoop name 0
  if name.head? = some '0' ∧ 1 < name.length then -1 else num

/-- Go `extract`: parse a group reference directly after a dollar sign,
either brace-delimited or a maximal run of word characters; returns the
name, its numeric value, and the rest of the template. -/
def extractRef : List Char → Option (List Char × Int × List Char)
  | [] => none
  | c :: s0 =>
    if c = Char.ofNat 123 then
      let name := s0.takeWhile isWordChar
      if name.length = 0 then none
      else
        match s0.drop name.length with
        | c2 :: rest2 =>
          if c2 = Char.ofNat 125 then some (name, refNum name, rest2) else none
        | [] => none
    else
      let name := (c :: s0).takeWhile isWordChar
      if name.length = 0 then none
      else some (name, refNum name, (c :: s0).drop name.length)

theorem takeWhile_length_le (p : Char → Bool) :
    ∀ l : List Char, (l.takeWhile p).length ≤ l.length := by
  intro l
  induction l with
  | nil => simp
  | cons a l ih =>
    by_cases h : p a
    · simp only [List.takeWhile_cons, h, if_true, List.length_cons]
      omega
    · simp [List.takeWhile_cons, h]

theorem extractRef_length {str name : List Char} {num : Int} {rest : List Char}
    (h : extractRef str = some (name, num, rest)) : rest.length < str.length := by
  match str with
  | [] => simp [extractRef] at h
  | c :: s0 =>
    simp only [extractRef] at h
    split at h
    · split at h
      · exact absurd h (by simp)
      · rename_i hn
        split at h
        · rename_i c2 rest2 hdrop
          split at h
          · simp only [Option.some.injEq, Prod.mk.injEq] at h
            obtain ⟨-, -, hrest⟩ := h
            have h1 : rest2.length + 1 = (s0.drop (s0.takeWhile isWordChar).length).length := by
              rw [hdrop]; simp
            have h2 := takeWhile_length_le isWordChar s0
            simp only [List.length_drop] at h1
            simp only [← hrest, List.length_cons]
            omega
          · exact absurd h (by simp)
        · exact absurd h (by simp)
    · split at h
      · exact absurd h (by simp)
      · rename_i hn
        simp only [Option.some.injEq, Prod.mk.injEq] at h
        obtain ⟨-, -, hrest⟩ := h
        have h2 := takeWhile_length_le isWordChar (c :: s0)
        simp only [← hrest, List.length_drop, List.length_cons] at h2 ⊢
        omega

/-- Text of capture group `i` of one match (Go: guarded by
`2*i+1 < len(match)` and `match[2*i] >= 0`). -/
def groupText (content : List Char) (m : List Int) (i : Nat) : List Char :=
  if 2 * i + 1 < m.length ∧ 0 ≤ m.getD (2 * i) (-1) then
    (content.drop (m.getD (2 * i) 0).toNat).take
      ((m.getD (2 * i + 1) 0) - (m.getD (2 * i) 0)).toNat
  else []

/-- Text of the first subexpression whose name matches a named
reference (Go: linear scan of `SubexpNames` with the same guards). -/
def namedText (names : List String) (content : List Char) (m : List Int)
    (name : List Char) : List Char :=
  match (List.range names.length).find?
      (fun i => names.getD i "" == name.asString
        && decide (2 * i + 1 < m.length) && decide (0 ≤ m.getD (2 * i) (-1))) with
  | some i => groupText content m i
  | none => []

/-- Replacement text of one parsed reference: numbered group when the
name is numeric, else named-group lookup. -/
def refText (names : List String) (content : List Char) (m : List Int)
    (name : List Char) (num : Int) : List Char :=
  if 0 ≤ num then groupText content m num.toNat
  else namedText names content m name

/-- The append loop of Go `Regexp.expand`: scan the template, copy
literal text into `dst`, replace `$$` by a dollar sign, replace a valid
group reference after a dollar sign by the group text, keep a dollar
sign whose reference is malformed.  Structurally recursive on a fuel
bound; every iteration consumes at least one template character
(`extractRef_length`), so fuel equal to the template length (what
`expandGo` passes) never runs out before the template is empty, and at
fuel zero the template is already empty. -/
def expandGoF (names : List String) (content : List Char) (m : List Int) :
    Nat → List Char → List Char → List Char
  | 0, dst, _ => dst
  | fuel + 1, dst, tmpl =>
    match tmpl with
    | [] => dst
    | c :: rest =>
      if c = Char.ofNat 36 then
        if rest.head? = some (Char.ofNat 36) then
          expandGoF names content m fuel (dst ++ [Char.ofNat 36]) (rest.drop 1)
        else
          match extractRef rest with
          | none => expandGoF names content m fuel (dst ++ [Char.ofNat 36]) rest
          | some (name, num, rest2) =>
            expandGoF names content m fuel (dst ++ refText names content m name num) rest2
      else
        expandGoF names content m fuel (dst ++ [c]) rest

/-- The expansion loop at its adequate fuel. -/
def expandGo (names : List String) (content : List Char) (m : List Int)
    (dst tmpl : List Char) : List Char :=
  expandGoF names content m tmpl.length dst tmpl

/-- Model of `Regexp.ExpandString(dst, template, content, submatches)`: `expandGo`
over the character lists. -/
def expandString (re : Regexp) (dst template content : String) (m : List Int) :
    String :=
  (expandGo re.names content.data m dst.data template.data).asString

/-! Section: formatMap (main.go lines 248-261) -/

/-- Model of `formatMap`: find all matches once, then for every template name
fold `ExpandString` over the matches, starting from an empty result.
Go builds a `map[string]string`; the model keeps the association list
in template order (per-name values are what the claims speak about). -/
def formatMap (templates : List (String × String)) (pattern : Regexp)
    (content : String) : List (String × String) :=
  let ms := pattern.findAll content
  templates.map fun kv =>
    (kv.1,
      (ms.foldl
        (fun result sub => expandGo pattern.names content.data sub result kv.2.data)
        []).asString)

/-! Section: Data model (main.go lines 181-194, 263-268) -/

structure Extraction where
  method : String
  url : String
  body : List (String × String)
  deriving DecidableEq, Repr

structure Tweak where
  call : String
  args : List (String × String)
  deriving DecidableEq, Repr

structure PreExtraction where
  method : String
  url : String
  body : List (String × String)
  pattern : String
  deriving DecidableEq, Repr

/-- Go map read `args[key]` with the zero-value default. -/
def lookupD (l : List (String × String)) (key d : String) : String :=
  match l.find? (fun kv => kv.1 == key) with
  | some kv => kv.2
  | none => d

/-! Section: request (main.go lines 30-53)

The two external calls are passed in by their outcomes: `newReq` is
what `http.NewRequest` returns for the given method and URL, `doReq`
what `http.DefaultClient.Do` returns (transport error, or a response
with a status code and a body stream).  The only status check in the
source is `resp.StatusCode > 299` (line 48). -/

structure HttpResponse where
  statusCode : Nat
  body : ByteL
  deriving DecidableEq, Repr

/-- Model of `request`: propagate a request-construction error, propagate a
transport error, reject a status code above 299, otherwise hand back
the response body stream. -/
def request (newReq : Except ErrKind Unit)
    (doReq : Except ErrKind HttpResponse) : Outcome ByteL :=
  match newReq with
  | .error e => .err e
  | .ok _ =>
    match doReq with
    | .error e => .err e
    | .ok resp =>
      if 299 < resp.statusCode then .err .extraction else .ok resp.body

/-! Section: unzip (main.go lines 63-81)

`zip.NewReader` is the external collaborator: given the fully buffered
archive bytes it either fails (malformed archive) or yields the list of
entries in archive order, each entry by its decompressed bytes.  A nil
input reader makes `io.Copy` dereference nil: a panic. -/

/-- Model of `unzip`: buffer the whole stream, close it, open it as a zip
archive; a zero-entry archive yields the nil stream with no error,
otherwise the stream over the first entry only. -/
def unzip (zipParse : ByteL → Except ErrKind (List ByteL))
    (reader : Option ByteL) : Outcome (Option ByteL) :=
  match reader with
  | none => .panicked
  | some content =>
    match zipParse content with
    | .error e => .err e
    | .ok [] => .ok none
    | .ok (f :: _) => .ok (some f)

/-! Section: tweak dispatch (main.go lines 161-179) and the tweak loop
(handler, lines 228-236)

`charsetLookup` models the encoding table behind
`charset.NewReaderLabel`: an unknown label is an error, a known label
is the decoding function.  `convert` wraps the stream lazily, so it
reads and closes nothing itself; a wrapper around a nil reader is
modelled by `none` (its first read dereferences nil, which is where the
crash surfaces downstream). -/

/-- What one `t.tweak(reader)` call does: its returned value, and
whether the call itself read the input stream to the end or closed it. -/
structure TweakEff where
  result : Outcome (Option ByteL)
  inputRead : Bool
  inputClosed : Bool
  deriving DecidableEq, Repr

/-- Model of `Tweak.tweak`: dispatch on `call`; `"unzip"` consumes and closes the
input, `"convert"` wraps it lazily, any other value is the
`unsupported call` configuration error, returned before the stream is
touched. -/
def Tweak.tweak (zipParse : ByteL → Except ErrKind (List ByteL))
    (charsetLookup : String → Option (ByteL → ByteL))
    (t : Tweak) (reader : Option ByteL) : TweakEff :=
  if t.call = "unzip" then
    match reader with
    | none => ⟨.panicked, false, false⟩
    | some content => ⟨unzip zipParse (some content), true, true⟩
  else if t.call = "convert" then
    match charsetLookup (lookupD t.args "charset" "") with
    | none => ⟨.err .transform, false, false⟩
    | some f => ⟨.ok (reader.map f), false, false⟩
  else ⟨.err .configuration, false, false⟩

/-- The tweak loop of `handler`: fold `tweak` over the chain, stopping
at the first error (or panic). -/
def runTweaks (zipParse : ByteL → Except ErrKind (List ByteL))
    (charsetLookup : String → Option (ByteL → ByteL)) :
    List Tweak → Option ByteL → Outcome (Option ByteL)
  | [], reader => .ok reader
  | t :: ts, reader =>
    match (Tweak.tweak zipParse charsetLookup t reader).result with
    | .ok r2 => runTweaks zipParse charsetLookup ts r2
    | .err e => .err e
    | .panicked => .panicked

/-! Section: column-name sanitization (main.go lines 118-124)

The regex of main.go line 119 (a negated class of the five categories
L, N, Pc, Pd, M and ten literal characters) matches one rune at a time, so `ReplaceAllString(v, "_")` rewrites each rune of the
class complement to one underscore.  The category predicates are
modelled on the ASCII range, where every claim input lives: the ASCII
letters are the ASCII part of `\p{L}`, the ASCII digits the ASCII part
of `\p{N}`, the low line the ASCII part of `\p{Pc}`, the hyphen-minus
the ASCII part of `\p{Pd}`, and `\p{M}` has no ASCII member. -/

/-- ASCII fragment of the Unicode letter category. -/
def isCatLetter (c : Char) : Bool := c.isAlpha

/-- ASCII fragment of the Unicode number category. -/
def isCatNumber (c : Char) : Bool := c.isDigit

/-- ASCII fragment of the connector-punctuation category. -/
def isCatPc (c : Char) : Bool := c = '_'

/-- ASCII fragment of the dash-punctuation category. -/
def isCatPd (c : Char) : Bool := c = '-'

/-- ASCII fragment of the mark category (empty). -/
def isCatMark (_ : Char) : Bool := false

/-- The literal characters of the class:
ampersand, percent, equals, plus, colon, apostrophe, less-than,
greater-than, number sign, vertical line. -/
def literalClassChars : List Char :=
  ['&', '%', '=', '+', ':', Char.ofNat 39, '<', '>', '#', '|']

/-- One rune matches the negated class `invalidCharacters` (main.go
line 119) exactly when it is in none of the listed categories and is
none of the listed literals. -/
def invalidCharacter (c : Char) : Bool :=
  !(isCatLetter c || isCatNumber c || isCatPc c || isCatPd c
      || isCatMark c || literalClassChars.contains c)

/-- The per-column sanitization of `load`:
`invalidCharacters.ReplaceAllString(v, "_")`. -/
def sanitizeName (v : String) : String :=
  (v.data.map (fun c => if invalidCharacter c then '_' else c)).asString

/-! Section: load (main.go lines 102-141)

`bq` is the external warehouse collaborator: it receives the sanitized
column names and the bytes still readable from the reader that
`csvHeader` handed back, and either fails or succeeds.  A nil input
reader crashes: `csvHeader` calls `Peek` on a `bufio.Reader` around the
nil interface, whose `fill` dereferences nil. -/

/-- Model of `load`: extract the CSV header, sanitize the column names into the
schema, then run the warehouse loader on the remaining stream. -/
def load (bq : List String → ByteL → Except ErrKind Unit)
    (reader : Option ByteL) : Outcome (List String × ByteL) :=
  match reader with
  | none => .panicked
  | some content =>
    match csvHeader content with
    | .err e => .err e
    | .panicked => .panicked
    | .ok (header, br) =>
      let names := header.map fun f => sanitizeName (bytesAsString f)
      let rest := br.readAll
      match bq names rest with
      | .error e => .err e
      | .ok _ => .ok (names, rest)

/-! Section: the tail of handler (main.go lines 228-245): tweak loop, then
load -/

/-- Outcome of one request from the tweak stage on: the HTTP status the
handler writes (`none` when the handler panics instead of responding),
and whether `load` was invoked. -/
structure HandlerResult where
  response : Option Nat
  loadCalled : Bool
  deriving DecidableEq, Repr

/-- The part of `handler` that follows the primary fetch: fold the
tweak chain; any tweak error answers 500 without calling `load`;
otherwise call `load` and answer 200 on success, 500 on error. -/
def handlerTweakLoad (zipParse : ByteL → Except ErrKind (List ByteL))
    (charsetLookup : String → Option (ByteL → ByteL))
    (bq : List String → ByteL → Except ErrKind Unit)
    (tweaks : List Tweak) (reader : Option ByteL) : HandlerResult :=
  match runTweaks zipParse charsetLookup tweaks reader with
  | .err _ => ⟨some 500, false⟩
  | .panicked => ⟨none, false⟩
  | .ok r2 =>
    match load bq r2 with
    | .panicked => ⟨none, true⟩
    | .err _ => ⟨some 500, true⟩
    | .ok _ => ⟨some 200, true⟩

/-! Section: preExtract (main.go lines 270-294)

`transport` is the outcome of `request` on the pre-extraction
parameters, already read to a string (`io.ReadAll`; its failure path is
`log.Fatal`, which never returns, and is outside every claim).
`compile` is `regexp.Compile`: the source calls `regexp.MustCompile`,
which panics instead of returning when `compile` fails. -/

/-- Model of `preExtract`: no-op when method and URL are both empty; otherwise
fetch, panic on an invalid pattern (`MustCompile`), and rewrite the
base extraction body through `formatMap`. -/
def PreExtraction.preExtract
    (transport : String → String → List (String × String) → Except ErrKind String)
    (compile : String → Option Regexp)
    (p : PreExtraction) (e : Extraction) : Outcome Extraction :=
  if p.method = "" ∧ p.url = "" then .ok e
  else
    match transport p.method p.url p.body with
    | .error err => .err err
    | .ok content =>
      match compile p.pattern with
      | none => .panicked
      | some pattern => .ok ⟨e.method, e.url, formatMap e.body pattern content⟩

/-! ## Theorems -/

/-- Lemma: `expandGoF` only ever appends to its destination buffer: the bytes
produced for a template are independent of what was accumulated
before. -/
theorem expandGoF_append (names : List String) (content : List Char) (m : List Int) :
    ∀ (fuel : Nat) (tmpl dst : List Char),
      expandGoF names content m fuel dst tmpl
        = dst ++ expandGoF names content m fuel [] tmpl := by
  intro fuel
  induction fuel with
  | zero => intro tmpl dst; simp [expandGoF]
  | succ k ih =>
    intro tmpl dst
    match tmpl with
    | [] => simp [expandGoF]
    | c :: rest =>
      by_cases hc : c = Char.ofNat 36
      · by_cases hd : rest.head? = some (Char.ofNat 36)
        · simp only [expandGoF, hc, hd, if_pos]
          rw [ih (rest.drop 1) (dst ++ [Char.ofNat 36]),
            ih (rest.drop 1) ([] ++ [Char.ofNat 36])]
          simp [List.append_assoc]
        · rcases hx : extractRef rest with - | ⟨name, num, rest2⟩
          · simp only [expandGoF, hc, hd, hx, if_pos, if_neg]
            rw [ih rest (dst ++ [Char.ofNat 36]), ih rest ([] ++ [Char.ofNat 36])]
            simp [List.append_assoc]
          · simp only [expandGoF, hc, hd, hx, if_pos, if_neg]
            rw [ih rest2 (dst ++ refText names content m name num),
              ih rest2 ([] ++ refText names content m name num)]
            simp [List.append_assoc]
      · simp only [expandGoF, hc, if_neg]
        rw [ih rest (dst ++ [c]), ih rest ([] ++ [c])]
        simp [List.append_assoc]

/-- The append property at the fuel `expandGo` uses. -/
theorem expandGo_append (names : List String) (content : List Char) (m : List Int)
    (tmpl dst : List Char) :
    expandGo names content m dst tmpl = dst ++ expandGo names content m [] tmpl :=
  expandGoF_append names content m tmpl.length tmpl dst

/-- Folding `ExpandString` over a match list, as `formatMap` does,
concatenates the per-match expansions after the accumulator. -/
theorem foldl_expandGo (names : List String) (content : List Char)
    (tmpl : List Char) :
    ∀ (ms : List (List Int)) (acc : List Char),
      ms.foldl (fun result sub => expandGo names content sub result tmpl) acc
        = acc ++ (ms.map (fun sub => expandGo names content sub [] tmpl)).flatten := by
  intro ms
  induction ms with
  | nil => intro acc; simp
  | cons sub ms ih =>
    intro acc
    simp only [List.foldl_cons, List.map_cons, List.flatten_cons]
    rw [ih, expandGo_append names content sub tmpl acc]
    simp [List.append_assoc]

/-- C2: for every template mapping, compiled pattern and content,
`formatMap` maps each template name to the concatenation, in match
order, of the template of that name expanded against every match; with zero
matches every value is the flattening of an empty list (the empty
string), and with no templates the mapping is empty. -/
theorem formatMap_concatenates_all_matches (templates : List (String × String))
    (pattern : Regexp) (content : String) :
    formatMap templates pattern content
      = templates.map fun kv =>
          (kv.1,
            (((pattern.findAll content).map
              (fun sub => expandGo pattern.names content.data sub [] kv.2.data)).flatten).asString) := by
  unfold formatMap
  refine List.map_congr_left fun kv _ => ?_
  rw [foldl_expandGo pattern.names content.data kv.2.data (pattern.findAll content) []]
  simp

/-- The UTF-8 encoding of the test input `"﻿a,b,c\n1,2,3\n"`:
three BOM bytes, then the ASCII text. -/
def bomCsvInput : ByteL := [0xEF, 0xBB, 0xBF] ++ strBytes "a,b,c\n1,2,3\n"

/-- C1: on the BOM-prefixed input `"﻿a,b,c\n1,2,3\n"`, `csvHeader`
does return the header `["a","b","c"]`, but the reader it hands back is
already drained: the record reader private buffer swallowed the bytes
`"1,2,3\n"`, so the remaining stream content is empty, not `"1,2,3\n"`
as the claim states. -/
theorem csvHeader_bom_input_drops_rows :
    csvHeader bomCsvInput
        = .ok ([strBytes "a", strBytes "b", strBytes "c"], ⟨[], []⟩) ∧
      BufReader.readAll ⟨[], []⟩ ≠ strBytes "1,2,3\n" := by
  exact ⟨by decide, by decide⟩

/-- C10: an input stream shorter than 3 bytes makes `csvHeader` fail at
the `Peek(3)` call, before any record is parsed. -/
theorem csvHeader_short_input_errors (content : ByteL) (h : content.length < 3) :
    csvHeader content = .err .eof := by
  match content with
  | [] => rfl
  | [a] => rfl
  | [a, b] => rfl
  | a :: b :: c :: rest =>
    simp only [List.length_cons] at h
    omega

/-- C10 witness: the two-byte input `"a\n"` is a complete CSV record,
yet `csvHeader` errors. -/
theorem csvHeader_short_input_errors_witness :
    (strBytes "a\n").length < 3 ∧ csvHeader (strBytes "a\n") = .err .eof :=
  ⟨by decide, csvHeader_short_input_errors (strBytes "a\n") (by decide)⟩

/-- C3 (amended): a nil stream is not handled downstream; `load` always
panics on it, whatever the warehouse collaborator would do, because
`csvHeader` calls `Peek` on a buffered reader around the nil interface. -/
theorem load_nil_stream_panics (bq : List String → ByteL → Except ErrKind Unit) :
    load bq none = .panicked := rfl

/-- C3 counterexample: a tweak chain whose `unzip` sees a zero-entry
archive hands `load` the nil stream, and `load` then crashes with a nil
dereference instead of terminating normally or with an ordinary
error. -/
theorem unzip_empty_archive_then_load_crashes :
    runTweaks (fun _ => .ok []) (fun _ => none) [⟨"unzip", []⟩]
        (some (strBytes "PK")) = .ok none ∧
      load (fun _ _ => .ok ()) none = .panicked :=
  ⟨by decide, rfl⟩

/-- C4 (amended): when the pre-extraction has a method or URL and its
fetch succeeds, an invalid pattern does not come back as an error at
all: `regexp.MustCompile` panics, crashing `preExtract`. -/
theorem preExtract_invalid_pattern_panics
    (transport : String → String → List (String × String) → Except ErrKind String)
    (compile : String → Option Regexp)
    (p : PreExtraction) (e : Extraction) (content : String)
    (hne : ¬ (p.method = "" ∧ p.url = ""))
    (ht : transport p.method p.url p.body = .ok content)
    (hc : compile p.pattern = none) :
    PreExtraction.preExtract transport compile p e = .panicked := by
  simp only [PreExtraction.preExtract, if_neg hne, ht, hc]

/-- C4 witness: a GET pre-extraction whose pattern is `"("` (which
`regexp.Compile` rejects: missing closing parenthesis, so the `compile`
parameter returns none on it) panics once the stub transport delivers a
body. -/
theorem preExtract_invalid_pattern_panics_witness :
    ¬ ((⟨"GET", "https://example.com/page", [], "("⟩ : PreExtraction).method = ""
        ∧ (⟨"GET", "https://example.com/page", [], "("⟩ : PreExtraction).url = "") ∧
      PreExtraction.preExtract (fun _ _ _ => .ok "payload") (fun _ => none)
          ⟨"GET", "https://example.com/page", [], "("⟩
          ⟨"GET", "https://example.com/data", [("q", "$1")]⟩
        = .panicked :=
  ⟨by decide,
    preExtract_invalid_pattern_panics (fun _ _ _ => .ok "payload") (fun _ => none)
      ⟨"GET", "https://example.com/page", [], "("⟩
      ⟨"GET", "https://example.com/data", [("q", "$1")]⟩
      "payload" (by decide) rfl rfl⟩

/-- C4 counterexample: with the same invalid pattern `"("` (rejected by
`regexp.Compile`, modelled by the compile stub returning none) and a
succeeding fetch, `preExtract` panics and in particular returns no
error of any kind to its caller — refuting the claim that it returns a
`ConfigurationError`. -/
theorem preExtract_invalid_pattern_returns_no_error :
    PreExtraction.preExtract (fun _ _ _ => .ok "payload") (fun _ => none)
        (⟨"GET", "https://example.com/page", [], "("⟩ : PreExtraction)
        (⟨"GET", "https://example.com/data", [("q", "$1")]⟩ : Extraction)
      = .panicked ∧
    ∀ k, PreExtraction.preExtract (fun _ _ _ => .ok "payload") (fun _ => none)
        (⟨"GET", "https://example.com/page", [], "("⟩ : PreExtraction)
        (⟨"GET", "https://example.com/data", [("q", "$1")]⟩ : Extraction)
      ≠ .err k := by
  refine ⟨by decide, fun k h => ?_⟩
  have h2 : (Outcome.panicked : Outcome Extraction) = .err k := h
  exact Outcome.noConfusion h2

/-- C5: for every archive the zip reader parses, `unzip` succeeds with
the bytes of the first entry in archive order (`head?`): a zero-entry
archive gives the nil stream, a non-empty archive the first entry only,
and in neither case is the result an error. -/
theorem unzip_first_entry_only
    (zipParse : ByteL → Except ErrKind (List ByteL))
    (content : ByteL) (entries : List ByteL)
    (h : zipParse content = .ok entries) :
    unzip zipParse (some content) = .ok entries.head? ∧
      ∀ k, unzip zipParse (some content) ≠ .err k := by
  cases entries with
  | nil =>
    refine ⟨by simp [unzip, h], fun k hk => ?_⟩
    rw [show unzip zipParse (some content) = .ok none by simp [unzip, h]] at hk
    exact Outcome.noConfusion hk
  | cons f fs =>
    refine ⟨by simp [unzip, h], fun k hk => ?_⟩
    rw [show unzip zipParse (some content) = .ok (some f) by simp [unzip, h]] at hk
    exact Outcome.noConfusion hk

/-- C5 witness: a zero-entry archive yields the nil stream and a
one-entry archive yields exactly that entry. -/
theorem unzip_first_entry_only_witness :
    ((fun _ => (.ok [] : Except ErrKind (List ByteL))) (strBytes "PK") = .ok []
      ∧ unzip (fun _ => .ok []) (some (strBytes "PK")) = .ok none) ∧
    ((fun _ => (.ok [strBytes "x,y\n1,2\n"] : Except ErrKind (List ByteL))) (strBytes "PK")
        = .ok [strBytes "x,y\n1,2\n"]
      ∧ unzip (fun _ => .ok [strBytes "x,y\n1,2\n"]) (some (strBytes "PK"))
        = .ok (some (strBytes "x,y\n1,2\n"))) :=
  ⟨⟨rfl, (unzip_first_entry_only (fun _ => .ok []) (strBytes "PK") [] rfl).1⟩,
    ⟨rfl, (unzip_first_entry_only (fun _ => .ok [strBytes "x,y\n1,2\n"])
      (strBytes "PK") [strBytes "x,y\n1,2\n"] rfl).1⟩⟩

/-- C6 (amended): `request` fails exactly when building the request
fails, the transport errors, or the response status exceeds 299.  A
status below 100 is accepted: the source checks only
`resp.StatusCode > 299`. -/
theorem request_fails_iff (newReq : Except ErrKind Unit)
    (doReq : Except ErrKind HttpResponse) :
    (∃ k, request newReq doReq = .err k)
      ↔ ((∃ k, newReq = .error k) ∨ (∃ k, doReq = .error k)
          ∨ ∃ r, doReq = .ok r ∧ 299 < r.statusCode) := by
  cases newReq with
  | error e => simp [request]
  | ok u =>
    cases doReq with
    | error e => simp [request]
    | ok r =>
      by_cases h : 299 < r.statusCode
      · simp only [request, if_pos h]
        constructor
        · intro _; exact Or.inr (Or.inr ⟨r, rfl, h⟩)
        · intro _; exact ⟨.extraction, rfl⟩
      · simp only [request, if_neg h]
        constructor
        · rintro ⟨k, hk⟩; exact Outcome.noConfusion hk
        · rintro (⟨k, hk⟩ | ⟨k, hk⟩ | ⟨r2, hr2, hs⟩)
          · exact Except.noConfusion hk
          · exact Except.noConfusion hk
          · cases hr2; exact absurd hs h

/-- C6 counterexample: a response with status code 99 — outside the
interval `[100, 299]` — is accepted by `request`, which returns the
body stream rather than the `ExtractionError` the claim requires. -/
theorem request_status_99_succeeds :
    request (.ok ()) (.ok ⟨99, strBytes "low"⟩) = .ok (strBytes "low") ∧
      ∀ k, request (.ok ()) (.ok ⟨99, strBytes "low"⟩) ≠ .err k := by
  refine ⟨rfl, fun k h => ?_⟩
  have h2 : (Outcome.ok (strBytes "low") : Outcome ByteL) = .err k := h
  exact Outcome.noConfusion h2

/-- A tweak chain containing a tweak whose `call` is neither `"unzip"`
nor `"convert"` never folds to a successful stream: the fold stops at
that tweak (or earlier). -/
theorem runTweaks_unknown_call_never_ok
    (zp : ByteL → Except ErrKind (List ByteL))
    (cl : String → Option (ByteL → ByteL)) (t : Tweak)
    (h1 : t.call ≠ "unzip") (h2 : t.call ≠ "convert") :
    ∀ (ts : List Tweak), t ∈ ts → ∀ r r2, runTweaks zp cl ts r ≠ .ok r2 := by
  intro ts
  induction ts with
  | nil => intro hmem; cases hmem
  | cons s ts ih =>
    intro hmem r r2
    rcases List.mem_cons.mp hmem with heq | hmem2
    · subst heq
      simp only [runTweaks, Tweak.tweak, if_neg h1, if_neg h2]
      intro hk
      exact Outcome.noConfusion hk
    · cases hres : (Tweak.tweak zp cl s r).result with
      | ok rr =>
        simp only [runTweaks, hres]
        exact ih hmem2 rr r2
      | err e =>
        simp only [runTweaks, hres]
        intro hk
        exact Outcome.noConfusion hk
      | panicked =>
        simp only [runTweaks, hres]
        intro hk
        exact Outcome.noConfusion hk

/-- C7: a tweak with an unknown `call` fails with the configuration
error while neither reading nor closing its input stream, and any run
whose chain contains it never reaches `load`. -/
theorem tweak_unknown_call_aborts_run
    (zp : ByteL → Except ErrKind (List ByteL))
    (cl : String → Option (ByteL → ByteL))
    (bq : List String → ByteL → Except ErrKind Unit)
    (tweaks : List Tweak) (t : Tweak) (r r0 : Option ByteL)
    (hmem : t ∈ tweaks) (h1 : t.call ≠ "unzip") (h2 : t.call ≠ "convert") :
    Tweak.tweak zp cl t r = ⟨.err .configuration, false, false⟩ ∧
      (handlerTweakLoad zp cl bq tweaks r0).loadCalled = false := by
  constructor
  · simp only [Tweak.tweak, if_neg h1, if_neg h2]
  · unfold handlerTweakLoad
    cases hrun : runTweaks zp cl tweaks r0 with
    | ok r2 =>
      exact absurd hrun (runTweaks_unknown_call_never_ok zp cl t h1 h2 tweaks hmem r0 r2)
    | err e => simp
    | panicked => simp

/-- C7 witness: a chain with the single unknown call `"gunzip"` answers
500 without invoking `load`, and the tweak leaves its stream alone. -/
theorem tweak_unknown_call_aborts_run_witness :
    (⟨"gunzip", []⟩ : Tweak) ∈ [(⟨"gunzip", []⟩ : Tweak)] ∧
    Tweak.tweak (fun _ => .ok []) (fun _ => none) ⟨"gunzip", []⟩ (some (strBytes "zzz"))
        = ⟨.err .configuration, false, false⟩ ∧
      (handlerTweakLoad (fun _ => .ok []) (fun _ => none) (fun _ _ => .ok ())
          [⟨"gunzip", []⟩] (some (strBytes "zzz"))).loadCalled = false := by
  refine ⟨List.mem_singleton.mpr rfl, ?_⟩
  exact tweak_unknown_call_aborts_run (fun _ => .ok []) (fun _ => none) (fun _ _ => .ok ())
    [⟨"gunzip", []⟩] ⟨"gunzip", []⟩ (some (strBytes "zzz")) (some (strBytes "zzz"))
    (List.mem_singleton.mpr rfl) (by decide) (by decide)

/-- C8: with both pre-extraction method and URL empty, `preExtract` is
the identity on the base extraction and errs for no transport at all —
the quantification over every transport (the witness instantiates a
transport that always fails) is the statement that no fetch happens. -/
theorem preExtract_noop_when_unconfigured
    (transport : String → String → List (String × String) → Except ErrKind String)
    (compile : String → Option Regexp)
    (p : PreExtraction) (e : Extraction)
    (hm : p.method = "") (hu : p.url = "") :
    PreExtraction.preExtract transport compile p e = .ok e := by
  simp only [PreExtraction.preExtract, if_pos (And.intro hm hu)]

/-- C8 witness: a pre-extraction with empty method and URL, run against
a transport stub that always fails, still returns the base extraction
unchanged. -/
theorem preExtract_noop_when_unconfigured_witness :
    (⟨"", "", [("k", "v")], "x"⟩ : PreExtraction).method = "" ∧
    (⟨"", "", [("k", "v")], "x"⟩ : PreExtraction).url = "" ∧
    PreExtraction.preExtract (fun _ _ _ => .error .extraction) (fun _ => none)
        ⟨"", "", [("k", "v")], "x"⟩ ⟨"GET", "https://example.com", [("a", "b")]⟩
      = .ok ⟨"GET", "https://example.com", [("a", "b")]⟩ :=
  ⟨rfl, rfl,
    preExtract_noop_when_unconfigured (fun _ _ _ => .error .extraction) (fun _ => none)
      ⟨"", "", [("k", "v")], "x"⟩ ⟨"GET", "https://example.com", [("a", "b")]⟩ rfl rfl⟩

/-- The allowed-character set exactly as the specification sentence
lists it: letters, numbers, connector and dash punctuation, marks, and
the ten literal characters.  Stated separately from `invalidCharacter`
(which follows the regex in the source) so the two can be compared. -/
def specAllowedChar (c : Char) : Bool :=
  isCatLetter c || isCatNumber c || isCatPc c || isCatPd c || isCatMark c
    || literalClassChars.contains c

/-- C9: sanitization keeps exactly the characters of the allowed set
and rewrites every other character to one underscore; on the examples,
`"a-b"` and `"c#1"` are unchanged while `"a b"` becomes `"a_b"`. -/
theorem sanitizeName_matches_spec :
    (∀ v : String, sanitizeName v
        = (v.data.map fun c => if specAllowedChar c then c else '_').asString) ∧
    sanitizeName "a-b" = "a-b" ∧ sanitizeName "c#1" = "c#1"
      ∧ sanitizeName "a b" = "a_b" := by
  refine ⟨fun v => ?_, by decide, by decide, by decide⟩
  unfold sanitizeName
  refine congrArg List.asString (List.map_congr_left fun c _ => ?_)
  have hflip : invalidCharacter c = !specAllowedChar c := rfl
  rw [hflip]
  cases specAllowedChar c <;> simp

end Tweakle
